import Mathlib

/-!
Shallow embedding of src/embedded-hal-wrapper.rs: an embedded-hal I2C
adapter over a device-centric Hubris I2C client.  Components modelled:
the address types (SevenBitAddr, TenBitAddr), the error classifier
(HubrisI2cError), the core adapter operations for 7-bit and 10-bit
addressing (HubrisI2c), the fast-path dispatcher (RegisterOptimizedI2c),
the retry decorator (RetryingI2c) and the mock harness (MockI2c).
Bytes are Nat (values < 256 in the source), buffers are List Nat carrying
their contents, and the underlying device client is an abstract state
machine whose calls are logged in a trace.
-/

/-- Status codes of the underlying Hubris I2C client (drv_i2c_api::ResponseCode),
the ten codes named by the interface; the classifier's catch-all arm covers
the rest uniformly. -/
inductive ResponseCode
  | Success
  | AddressNackSentEarly
  | AddressNackSentLate
  | DataNackSent
  | BusError
  | ArbitrationLost
  | BusLocked
  | BusTimeout
  | NoDevice
  | BadResponse
deriving DecidableEq

/-- embedded_hal::i2c::NoAcknowledgeSource. -/
inductive NoAcknowledgeSource
  | Address
  | Data
deriving DecidableEq

/-- embedded_hal::i2c::ErrorKind (the variants this wrapper produces). -/
inductive ErrorKind
  | NoAcknowledge (source : NoAcknowledgeSource)
  | Bus
  | ArbitrationLoss
  | Other
deriving DecidableEq

/-- HubrisI2cError: a low-level status code plus a static operation label. -/
structure HubrisI2cError where
  response_code : ResponseCode
  operation : String
deriving DecidableEq

/-- embedded_hal::i2c::Error::kind for HubrisI2cError (source lines 144-165). -/
def HubrisI2cError.kind (e : HubrisI2cError) : ErrorKind :=
  match e.response_code with
  | ResponseCode.Success => ErrorKind.Other
  | ResponseCode.AddressNackSentEarly => ErrorKind.NoAcknowledge NoAcknowledgeSource.Address
  | ResponseCode.AddressNackSentLate => ErrorKind.NoAcknowledge NoAcknowledgeSource.Address
  | ResponseCode.DataNackSent => ErrorKind.NoAcknowledge NoAcknowledgeSource.Data
  | ResponseCode.BusError => ErrorKind.Bus
  | ResponseCode.ArbitrationLost => ErrorKind.ArbitrationLoss
  | _ => ErrorKind.Other

/-- HubrisI2cError::is_device_not_found (source lines 185-192). -/
def HubrisI2cError.is_device_not_found (e : HubrisI2cError) : Bool :=
  match e.response_code with
  | ResponseCode.AddressNackSentEarly => true
  | ResponseCode.AddressNackSentLate => true
  | ResponseCode.NoDevice => true
  | _ => false

/-- HubrisI2cError::is_temporary (source lines 195-200). -/
def HubrisI2cError.is_temporary (e : HubrisI2cError) : Bool :=
  match e.response_code with
  | ResponseCode.BusLocked => true
  | ResponseCode.BusTimeout => true
  | ResponseCode.ArbitrationLost => true
  | _ => false

/-- HubrisI2cError::retry_delay, in milliseconds (source lines 203-210). -/
def HubrisI2cError.retry_delay (e : HubrisI2cError) : Option Nat :=
  match e.response_code with
  | ResponseCode.BusLocked => some 10
  | ResponseCode.BusTimeout => some 100
  | ResponseCode.ArbitrationLost => some 1
  | _ => none

/-- Address validation errors (source lines 266-271). -/
inductive InvalidAddress
  | SevenBitRange (value : Nat)
  | TenBitRange (value : Nat)
  | Reserved (value : Nat)
deriving DecidableEq

/-- 7-bit address wrapper; the u8 payload is a Nat below 256. -/
structure SevenBitAddr where
  val : Nat
deriving DecidableEq

/-- SevenBitAddr::get. -/
def SevenBitAddr.get (a : SevenBitAddr) : Nat := a.val

/-- SevenBitAddr::try_new (source lines 229-237). -/
def SevenBitAddr.try_new (addr : Nat) : Except InvalidAddress SevenBitAddr :=
  if addr > 0x7F then
    Except.error (InvalidAddress.SevenBitRange addr)
  else if addr < 0x08 ∨ addr > 0x77 then
    Except.error (InvalidAddress.Reserved addr)
  else
    Except.ok ⟨addr⟩

/-- 10-bit address wrapper; the u16 payload is a Nat below 65536. -/
structure TenBitAddr where
  val : Nat
deriving DecidableEq

/-- TenBitAddr::get. -/
def TenBitAddr.get (a : TenBitAddr) : Nat := a.val

/-- TenBitAddr::try_new (source lines 256-262). -/
def TenBitAddr.try_new (addr : Nat) : Except InvalidAddress TenBitAddr :=
  if addr > 0x3FF then
    Except.error (InvalidAddress.TenBitRange addr)
  else
    Except.ok ⟨addr⟩

/-- Abstract model of the underlying Hubris device client (drv_i2c_api::I2cDevice):
a state machine over states σ, one transition function per client call the
wrapper uses.  Buffers are passed as their current contents; a successful read
returns the new contents together with the byte count the client reports. -/
structure I2cDevice (σ : Type) where
  write : List Nat → σ → Except ResponseCode Nat × σ
  readInto : List Nat → σ → Except ResponseCode (List Nat × Nat) × σ
  readRegInto : Nat → List Nat → σ → Except ResponseCode (List Nat × Nat) × σ

/-- One underlying client call, as recorded in the trace. -/
inductive DevCall
  | write (bytes : List Nat)
  | readInto (buffer : List Nat)
  | readRegInto (reg : Nat) (buffer : List Nat)
deriving DecidableEq

/-- Device-model state paired with the trace of client calls issued so far. -/
structure DevState (σ : Type) where
  dev : σ
  log : List DevCall

variable {σ E R : Type}

/-- Issue device.write, recording the call. -/
def devWrite (d : I2cDevice σ) (bytes : List Nat) (s : DevState σ) :
    Except ResponseCode Nat × DevState σ :=
  let r := d.write bytes s.dev
  (r.1, ⟨r.2, s.log ++ [DevCall.write bytes]⟩)

/-- Issue device.read_into, recording the call. -/
def devReadInto (d : I2cDevice σ) (buffer : List Nat) (s : DevState σ) :
    Except ResponseCode (List Nat × Nat) × DevState σ :=
  let r := d.readInto buffer s.dev
  (r.1, ⟨r.2, s.log ++ [DevCall.readInto buffer]⟩)

/-- Issue device.read_reg_into, recording the call. -/
def devReadRegInto (d : I2cDevice σ) (reg : Nat) (buffer : List Nat) (s : DevState σ) :
    Except ResponseCode (List Nat × Nat) × DevState σ :=
  let r := d.readRegInto reg buffer s.dev
  (r.1, ⟨r.2, s.log ++ [DevCall.readRegInto reg buffer]⟩)

/-- An element of an embedded-hal transaction: Operation::Read carries the
buffer contents, Operation::Write the outgoing bytes. -/
inductive Operation
  | read (buffer : List Nat)
  | write (bytes : List Nat)
deriving DecidableEq

/-- 7-bit HubrisI2c::read (source lines 321-334): the per-call address is
ignored, a single read_into is issued, and the byte count discarded. -/
def HubrisI2c.read (d : I2cDevice σ) (_address : SevenBitAddr) (buffer : List Nat)
    (s : DevState σ) : Except HubrisI2cError (List Nat) × DevState σ :=
  match devReadInto d buffer s with
  | (Except.ok r, s1) => (Except.ok r.1, s1)
  | (Except.error code, s1) => (Except.error ⟨code, "read"⟩, s1)

/-- 7-bit HubrisI2c::write (source lines 336-343). -/
def HubrisI2c.write (d : I2cDevice σ) (_address : SevenBitAddr) (bytes : List Nat)
    (s : DevState σ) : Except HubrisI2cError Unit × DevState σ :=
  match devWrite d bytes s with
  | (Except.ok _, s1) => (Except.ok (), s1)
  | (Except.error code, s1) => (Except.error ⟨code, "write"⟩, s1)

/-- 7-bit HubrisI2c::write_read (source lines 345-378): a one-byte write is
rerouted to read_reg_into, anything else becomes a write followed by a read. -/
def HubrisI2c.write_read (d : I2cDevice σ) (_address : SevenBitAddr) (bytes : List Nat)
    (buffer : List Nat) (s : DevState σ) : Except HubrisI2cError (List Nat) × DevState σ :=
  if bytes.length = 1 then
    match devReadRegInto d (bytes.headD 0) buffer s with
    | (Except.ok r, s1) => (Except.ok r.1, s1)
    | (Except.error code, s1) => (Except.error ⟨code, "write_read_reg"⟩, s1)
  else
    match devWrite d bytes s with
    | (Except.error code, s1) => (Except.error ⟨code, "write_read_write_phase"⟩, s1)
    | (Except.ok _, s1) =>
      match devReadInto d buffer s1 with
      | (Except.ok r, s2) => (Except.ok r.1, s2)
      | (Except.error code, s2) => (Except.error ⟨code, "write_read_read_phase"⟩, s2)

/-- 7-bit HubrisI2c::transaction (source lines 380-408): sequential delegation
to read/write, retagging failures, stopping at the first failure.  On success
the returned list carries the filled read buffers. -/
def HubrisI2c.transaction (d : I2cDevice σ) (address : SevenBitAddr)
    (operations : List Operation) (s : DevState σ) :
    Except HubrisI2cError (List Operation) × DevState σ :=
  match operations with
  | [] => (Except.ok [], s)
  | Operation.read buffer :: rest =>
    match HubrisI2c.read d address buffer s with
    | (Except.error e, s1) => (Except.error ⟨e.response_code, "transaction_read"⟩, s1)
    | (Except.ok buf1, s1) =>
      match HubrisI2c.transaction d address rest s1 with
      | (Except.ok rest1, s2) => (Except.ok (Operation.read buf1 :: rest1), s2)
      | (Except.error e, s2) => (Except.error e, s2)
  | Operation.write bytes :: rest =>
    match HubrisI2c.write d address bytes s with
    | (Except.error e, s1) => (Except.error ⟨e.response_code, "transaction_write"⟩, s1)
    | (Except.ok _, s1) =>
      match HubrisI2c.transaction d address rest s1 with
      | (Except.ok rest1, s2) => (Except.ok (Operation.write bytes :: rest1), s2)
      | (Except.error e, s2) => (Except.error e, s2)

/-- High byte of the emulated 10-bit address header (source lines 425, 455). -/
def tenBitAddrHigh (address : Nat) : Nat := 0xF0 ||| ((address >>> 7) &&& 0x06)

/-- Low byte of the emulated 10-bit address header (source lines 426, 456). -/
def tenBitAddrLow (address : Nat) : Nat := address &&& 0xFF

/-- heapless::Vec::push repeated over a list: each push fails once the vector
already holds cap elements (heapless::Vec<u8, 258> in the source). -/
def pushAll (cap : Nat) (acc : List Nat) : List Nat → Option (List Nat)
  | [] => some acc
  | x :: rest => if acc.length < cap then pushAll cap (acc ++ [x]) rest else none

/-- 10-bit HubrisI2c::read (source lines 413-447): header write, then a plain
read (an approximation without a genuine repeated start). -/
def HubrisI2c.read10 (d : I2cDevice σ) (address : TenBitAddr) (buffer : List Nat)
    (s : DevState σ) : Except HubrisI2cError (List Nat) × DevState σ :=
  match devWrite d [tenBitAddrHigh address.val, tenBitAddrLow address.val] s with
  | (Except.error code, s1) => (Except.error ⟨code, "10bit_address_setup"⟩, s1)
  | (Except.ok _, s1) =>
    match devReadInto d buffer s1 with
    | (Except.ok r, s2) => (Except.ok r.1, s2)
    | (Except.error code, s2) => (Except.error ⟨code, "10bit_read"⟩, s2)

/-- 10-bit HubrisI2c::write (source lines 449-482): header and payload pushed
one by one into a capacity-258 vector, then a single combined write; a failed
push is the buffer-overflow error and no client call is made. -/
def HubrisI2c.write10 (d : I2cDevice σ) (address : TenBitAddr) (bytes : List Nat)
    (s : DevState σ) : Except HubrisI2cError Unit × DevState σ :=
  match pushAll 258 [] (tenBitAddrHigh address.val :: tenBitAddrLow address.val :: bytes) with
  | none => (Except.error ⟨ResponseCode.BadResponse, "10bit_write_buffer_overflow"⟩, s)
  | some write_data =>
    match devWrite d write_data s with
    | (Except.ok _, s1) => (Except.ok (), s1)
    | (Except.error code, s1) => (Except.error ⟨code, "10bit_write"⟩, s1)

/-- 10-bit HubrisI2c::write_read (source lines 484-494): the 10-bit write
emulation followed by the 10-bit read emulation, errors propagated as-is. -/
def HubrisI2c.write_read10 (d : I2cDevice σ) (address : TenBitAddr) (bytes : List Nat)
    (buffer : List Nat) (s : DevState σ) : Except HubrisI2cError (List Nat) × DevState σ :=
  match HubrisI2c.write10 d address bytes s with
  | (Except.error e, s1) => (Except.error e, s1)
  | (Except.ok _, s1) => HubrisI2c.read10 d address buffer s1

/-- 10-bit HubrisI2c::transaction (source lines 496-513): sequential
delegation without retagging. -/
def HubrisI2c.transaction10 (d : I2cDevice σ) (address : TenBitAddr)
    (operations : List Operation) (s : DevState σ) :
    Except HubrisI2cError (List Operation) × DevState σ :=
  match operations with
  | [] => (Except.ok [], s)
  | Operation.read buffer :: rest =>
    match HubrisI2c.read10 d address buffer s with
    | (Except.error e, s1) => (Except.error e, s1)
    | (Except.ok buf1, s1) =>
      match HubrisI2c.transaction10 d address rest s1 with
      | (Except.ok rest1, s2) => (Except.ok (Operation.read buf1 :: rest1), s2)
      | (Except.error e, s2) => (Except.error e, s2)
  | Operation.write bytes :: rest =>
    match HubrisI2c.write10 d address bytes s with
    | (Except.error e, s1) => (Except.error e, s1)
    | (Except.ok _, s1) =>
      match HubrisI2c.transaction10 d address rest s1 with
      | (Except.ok rest1, s2) => (Except.ok (Operation.write bytes :: rest1), s2)
      | (Except.error e, s2) => (Except.error e, s2)

/-- Fast-path RegisterOptimizedI2c::transaction (source lines 585-612): the
two-element shape Write(1 byte) then Read is rerouted to read_reg_into; every
other shape falls back to the core adapter transaction. -/
def RegisterOptimizedI2c.transaction (d : I2cDevice σ) (address : SevenBitAddr)
    (operations : List Operation) (s : DevState σ) :
    Except HubrisI2cError (List Operation) × DevState σ :=
  match operations with
  | [Operation.write write_data, Operation.read read_buffer] =>
    if write_data.length = 1 then
      match devReadRegInto d (write_data.headD 0) read_buffer s with
      | (Except.ok r, s1) =>
        (Except.ok [Operation.write write_data, Operation.read r.1], s1)
      | (Except.error code, s1) => (Except.error ⟨code, "optimized_transaction"⟩, s1)
    else
      HubrisI2c.transaction d address operations s
  | _ => HubrisI2c.transaction d address operations s

/-- One retry-loop outcome: the returned value, how many times the wrapped
operation was invoked, and the sleeps performed (milliseconds, in order). -/
structure RetryResult (E R : Type) where
  result : Except E R
  attempts : Nat
  sleeps : List Nat

/-- The loop body of RetryingI2c::retry_operation (source lines 633-669).  The
wrapped stateful closure is modelled by the result its k-th invocation
produces; the error-kind classifier of the inner error type is a parameter.
The fuel argument is the number of loop iterations still allowed
(max_retries + 1 - attempt); the wrapper supplies enough that the zero-fuel
arm is never reached. -/
def retryLoop (kind : E → ErrorKind) (max_retries : Nat) (op : Nat → Except E R) :
    Nat → Nat → RetryResult E R
  | attempt, 0 => ⟨op attempt, 0, []⟩
  | attempt, fuel + 1 =>
    match op attempt with
    | Except.ok r => ⟨Except.ok r, 1, []⟩
    | Except.error e =>
      match kind e with
      | ErrorKind.ArbitrationLoss | ErrorKind.Other =>
        if attempt < max_retries then
          let rest := retryLoop kind max_retries op (attempt + 1) fuel
          ⟨rest.result, rest.attempts + 1, 10 * (attempt + 1) :: rest.sleeps⟩
        else
          ⟨Except.error e, 1, []⟩
      | _ => ⟨Except.error e, 1, []⟩

/-- RetryingI2c::retry_operation (source lines 633-669): run the loop from
attempt 0 with max_retries + 1 iterations allowed. -/
def retry_operation (kind : E → ErrorKind) (max_retries : Nat)
    (op : Nat → Except E R) : RetryResult E R :=
  retryLoop kind max_retries op 0 (max_retries + 1)

/-- A scripted expectation of the mock harness (source lines 723-738). -/
inductive MockOperation
  | read (address : SevenBitAddr) (response : List Nat)
  | write (address : SevenBitAddr) (expected_data : List Nat)
  | writeRead (address : SevenBitAddr) (expected_write : List Nat) (read_response : List Nat)
deriving DecidableEq

/-- MockI2c state: the scripted expectations and the cursor into them. -/
structure MockI2c where
  expected_operations : List MockOperation
  operation_index : Nat
deriving DecidableEq

/-- MockI2cError carries only a static message (source lines 808-811). -/
structure MockI2cError where
  message : String
deriving DecidableEq

/-- MockI2c::read (source lines 830-862): result, final contents of the
caller's buffer, and mock state after the call. -/
def MockI2c.read (m : MockI2c) (address : SevenBitAddr) (buffer : List Nat) :
    Except MockI2cError Unit × List Nat × MockI2c :=
  if m.operation_index ≥ m.expected_operations.length then
    (Except.error ⟨"Unexpected read operation"⟩, buffer, m)
  else
    match m.expected_operations[m.operation_index]? with
    | some (MockOperation.read expected_addr response) =>
      if expected_addr ≠ address then
        (Except.error ⟨"Read address mismatch"⟩, buffer, m)
      else if buffer.length ≠ response.length then
        (Except.error ⟨"Read buffer size mismatch"⟩, buffer, m)
      else
        (Except.ok (), response, ⟨m.expected_operations, m.operation_index + 1⟩)
    | _ => (Except.error ⟨"Expected read operation"⟩, buffer, m)

/-- MockI2c::write (source lines 864-895). -/
def MockI2c.write (m : MockI2c) (address : SevenBitAddr) (bytes : List Nat) :
    Except MockI2cError Unit × MockI2c :=
  if m.operation_index ≥ m.expected_operations.length then
    (Except.error ⟨"Unexpected write operation"⟩, m)
  else
    match m.expected_operations[m.operation_index]? with
    | some (MockOperation.write expected_addr expected_data) =>
      if expected_addr ≠ address then
        (Except.error ⟨"Write address mismatch"⟩, m)
      else if bytes ≠ expected_data then
        (Except.error ⟨"Write data mismatch"⟩, m)
      else
        (Except.ok (), ⟨m.expected_operations, m.operation_index + 1⟩)
    | _ => (Except.error ⟨"Expected write operation"⟩, m)

/-- MockI2c::write_read (source lines 897-941): result, final contents of the
caller's buffer, and mock state after the call. -/
def MockI2c.write_read (m : MockI2c) (address : SevenBitAddr) (bytes : List Nat)
    (buffer : List Nat) : Except MockI2cError Unit × List Nat × MockI2c :=
  if m.operation_index ≥ m.expected_operations.length then
    (Except.error ⟨"Unexpected write_read operation"⟩, buffer, m)
  else
    match m.expected_operations[m.operation_index]? with
    | some (MockOperation.writeRead expected_addr expected_write read_response) =>
      if expected_addr ≠ address then
        (Except.error ⟨"WriteRead address mismatch"⟩, buffer, m)
      else if bytes ≠ expected_write then
        (Except.error ⟨"WriteRead write data mismatch"⟩, buffer, m)
      else if buffer.length ≠ read_response.length then
        (Except.error ⟨"WriteRead read buffer size mismatch"⟩, buffer, m)
      else
        (Except.ok (), read_response, ⟨m.expected_operations, m.operation_index + 1⟩)
    | _ => (Except.error ⟨"Expected write_read operation"⟩, buffer, m)

/-- Outcome comparison up to the operation label: equal success values, or
equal low-level response codes on failure. -/
def sameOutcome (r1 r2 : Except HubrisI2cError (List Operation)) : Bool :=
  match r1, r2 with
  | Except.ok a, Except.ok b => a == b
  | Except.error e1, Except.error e2 => e1.response_code == e2.response_code
  | _, _ => false

/-- A device model on which the client's read_reg_into primitive behaves
exactly as a write of the register byte followed by read_into (what a real
register-oriented I2C target does). -/
def I2cDevice.Coherent (d : I2cDevice σ) : Prop :=
  ∀ reg buffer s0,
    d.readRegInto reg buffer s0 =
      match d.write [reg] s0 with
      | (Except.ok _, s1) => d.readInto buffer s1
      | (Except.error code, s1) => (Except.error code, s1)

/-- A concrete device model on which every call succeeds: writes report their
length, reads return the buffer contents unchanged. -/
def okDevice : I2cDevice Unit :=
  ⟨fun bytes s => (Except.ok bytes.length, s),
   fun buffer s => (Except.ok (buffer, buffer.length), s),
   fun _ buffer s => (Except.ok (buffer, buffer.length), s)⟩

/-- A concrete device model whose register-read primitive fails with a bus
error while plain writes and reads succeed. -/
def regFailDevice : I2cDevice Unit :=
  ⟨fun bytes s => (Except.ok bytes.length, s),
   fun buffer s => (Except.ok (buffer, buffer.length), s),
   fun _ _ s => (Except.error ResponseCode.BusError, s)⟩

/-- The retry decorator's retryable kinds (source line 647). -/
def retryableKindB : ErrorKind → Bool
  | ErrorKind.ArbitrationLoss => true
  | ErrorKind.Other => true
  | _ => false

/-- The non-retryable kinds: address nack, data nack, bus error. -/
def nonRetryableKindB : ErrorKind → Bool
  | ErrorKind.NoAcknowledge _ => true
  | ErrorKind.Bus => true
  | _ => false

/-- A result that is a failure of retryable kind. -/
def failsRetryable (kind : E → ErrorKind) : Except E R → Bool
  | Except.error e => retryableKindB (kind e)
  | Except.ok _ => false

/-- A result that is a failure of non-retryable kind. -/
def failsNonRetryable (kind : E → ErrorKind) : Except E R → Bool
  | Except.error e => nonRetryableKindB (kind e)
  | Except.ok _ => false

/-- Success test for Except values. -/
def exceptIsOk : Except E R → Bool
  | Except.ok _ => true
  | Except.error _ => false

/-- C6: the 7-bit read and write operations ignore the per-call address
entirely: for any two addresses and the same buffer/bytes and device model,
they perform the same underlying client operations and return the same
result. -/
theorem sevenbit_read_write_ignore_address (d : I2cDevice σ) (a1 a2 : SevenBitAddr)
    (buffer bytes : List Nat) (s : DevState σ) :
    HubrisI2c.read d a1 buffer s = HubrisI2c.read d a2 buffer s ∧
    HubrisI2c.write d a1 bytes s = HubrisI2c.write d a2 bytes s :=
  ⟨rfl, rfl⟩

/-- C7: SevenBitAddr::try_new accepts exactly [0x08, 0x77] (round-tripping via
get), rejects the reserved bands [0x00, 0x07] and [0x78, 0x7F] with
InvalidAddress::Reserved, and rejects u8 values above 0x7F with
InvalidAddress::SevenBitRange. -/
theorem sevenbit_try_new_spec (a : Nat) (h : a ≤ 0xFF) :
    (0x08 ≤ a ∧ a ≤ 0x77 →
      SevenBitAddr.try_new a = Except.ok ⟨a⟩ ∧ (SevenBitAddr.mk a).get = a) ∧
    (a ≤ 0x07 ∨ (0x78 ≤ a ∧ a ≤ 0x7F) →
      SevenBitAddr.try_new a = Except.error (InvalidAddress.Reserved a)) ∧
    (0x7F < a → SevenBitAddr.try_new a = Except.error (InvalidAddress.SevenBitRange a)) := by
  refine ⟨fun hin => ?_, fun hres => ?_, fun hbig => ?_⟩ <;>
    simp only [SevenBitAddr.try_new, SevenBitAddr.get] <;> split_ifs <;>
    first
      | exact ⟨rfl, trivial⟩
      | rfl
      | omega

/-- Witness for C7 at a = 0x48, 0x79 and 0x90. -/
theorem sevenbit_try_new_witness :
    (SevenBitAddr.try_new 0x48 = Except.ok ⟨0x48⟩ ∧ (SevenBitAddr.mk 0x48).get = 0x48) ∧
    SevenBitAddr.try_new 0x79 = Except.error (InvalidAddress.Reserved 0x79) ∧
    SevenBitAddr.try_new 0x90 = Except.error (InvalidAddress.SevenBitRange 0x90) :=
  ⟨(sevenbit_try_new_spec 0x48 (by decide)).1 (by decide),
   (sevenbit_try_new_spec 0x79 (by decide)).2.1 (by decide),
   (sevenbit_try_new_spec 0x90 (by decide)).2.2 (by decide)⟩

/-- C8: the classifier is a total deterministic function of the status code
alone (independent of the operation label), every code lands in the five-kind
taxonomy with the nominal success code mapped to Other, and
is_device_not_found and is_temporary are mutually exclusive. -/
theorem error_classifier_total_exclusive :
    (∀ (code : ResponseCode) (op1 op2 : String),
      (HubrisI2cError.mk code op1).kind = (HubrisI2cError.mk code op2).kind) ∧
    (∀ op, (HubrisI2cError.mk ResponseCode.Success op).kind = ErrorKind.Other) ∧
    (∀ e : HubrisI2cError,
      e.kind = ErrorKind.NoAcknowledge NoAcknowledgeSource.Address ∨
      e.kind = ErrorKind.NoAcknowledge NoAcknowledgeSource.Data ∨
      e.kind = ErrorKind.Bus ∨ e.kind = ErrorKind.ArbitrationLoss ∨
      e.kind = ErrorKind.Other) ∧
    (∀ e : HubrisI2cError, ¬(e.is_device_not_found = true ∧ e.is_temporary = true)) := by
  refine ⟨fun code op1 op2 => ?_, fun op => rfl, fun e => ?_, fun e => ?_⟩
  · cases code <;> rfl
  · obtain ⟨code, op⟩ := e
    cases code <;> simp [HubrisI2cError.kind]
  · obtain ⟨code, op⟩ := e
    cases code <;> simp [HubrisI2cError.is_device_not_found, HubrisI2cError.is_temporary]

/-- Pushing a list that fits within the capacity succeeds and appends it. -/
theorem pushAll_fits (cap : Nat) (xs : List Nat) : ∀ acc : List Nat,
    acc.length + xs.length ≤ cap → pushAll cap acc xs = some (acc ++ xs) := by
  induction xs with
  | nil => intro acc _; simp [pushAll]
  | cons x rest ih =>
    intro acc hlen
    simp only [List.length_cons] at hlen
    simp only [pushAll]
    rw [if_pos (by omega)]
    rw [ih (acc ++ [x]) (by simp; omega)]
    simp

/-- Pushing a nonempty list that does not fit fails. -/
theorem pushAll_overflow (cap : Nat) (xs : List Nat) : ∀ acc : List Nat,
    xs ≠ [] → acc.length + xs.length > cap → pushAll cap acc xs = none := by
  induction xs with
  | nil => intro acc h _; exact absurd rfl h
  | cons x rest ih =>
    intro acc _ hlen
    simp only [List.length_cons] at hlen
    simp only [pushAll]
    by_cases h1 : acc.length < cap
    · rw [if_pos h1]
      cases rest with
      | nil => simp only [List.length_nil] at hlen; exfalso; omega
      | cons y t =>
        refine ih (acc ++ [x]) (by simp) ?_
        simp only [List.length_append, List.length_cons, List.length_nil] at hlen ⊢
        omega
    · rw [if_neg h1]

/-- C4: for payloads of at most 256 bytes the 10-bit write emulation issues
exactly one underlying client write of the two header bytes
0xF0 ||| ((a >>> 7) &&& 0x06) and a &&& 0xFF followed by the payload; a longer
payload yields the buffer-overflow error (an Other-kind error) with no
underlying write, no truncation and no state change. -/
theorem write10_emulation_spec (d : I2cDevice σ) (a : TenBitAddr) (p : List Nat)
    (s : DevState σ) (_ha : a.val ≤ 0x3FF) :
    tenBitAddrHigh a.val = 0xF0 ||| ((a.val >>> 7) &&& 0x06) ∧
    tenBitAddrLow a.val = a.val &&& 0xFF ∧
    (p.length ≤ 256 →
      (HubrisI2c.write10 d a p s).2.log =
        s.log ++ [DevCall.write (tenBitAddrHigh a.val :: tenBitAddrLow a.val :: p)]) ∧
    (p.length > 256 →
      HubrisI2c.write10 d a p s =
        (Except.error ⟨ResponseCode.BadResponse, "10bit_write_buffer_overflow"⟩, s) ∧
      (HubrisI2cError.mk ResponseCode.BadResponse "10bit_write_buffer_overflow").kind =
        ErrorKind.Other) := by
  refine ⟨rfl, rfl, ?_, ?_⟩
  · intro hlen
    have hp := pushAll_fits 258 (tenBitAddrHigh a.val :: tenBitAddrLow a.val :: p) []
      (by simp only [List.length_nil, List.length_cons]; omega)
    simp only [List.nil_append] at hp
    simp only [HubrisI2c.write10, hp]
    rcases hw : d.write (tenBitAddrHigh a.val :: tenBitAddrLow a.val :: p) s.dev with ⟨r1, σ1⟩
    cases r1 <;> simp [devWrite, hw]
  · intro hlen
    refine ⟨?_, rfl⟩
    have hp := pushAll_overflow 258 (tenBitAddrHigh a.val :: tenBitAddrLow a.val :: p) []
      (by simp) (by simp only [List.length_nil, List.length_cons]; omega)
    simp only [HubrisI2c.write10, hp]

/-- Witness for C4: address 0x123 with payload [0xAA] issues the single write
[0xF2, 0x23, 0xAA]; a 257-byte payload is rejected without any client call. -/
theorem write10_emulation_witness :
    (0x123 : Nat) ≤ 0x3FF ∧
    (HubrisI2c.write10 okDevice ⟨0x123⟩ [0xAA] ⟨(), []⟩).2.log =
      [DevCall.write [0xF2, 0x23, 0xAA]] ∧
    HubrisI2c.write10 okDevice ⟨0x123⟩ (List.replicate 257 0) ⟨(), []⟩ =
      (Except.error ⟨ResponseCode.BadResponse, "10bit_write_buffer_overflow"⟩, ⟨(), []⟩) := by
  refine ⟨by decide, ?_, ?_⟩
  · exact ((write10_emulation_spec okDevice ⟨0x123⟩ [0xAA] ⟨(), []⟩
      (by decide)).2.2.1 (by decide)).trans (by decide)
  · exact ((write10_emulation_spec okDevice ⟨0x123⟩ (List.replicate 257 0) ⟨(), []⟩
      (by decide)).2.2.2 (by rw [List.length_replicate]; omega)).1

/-- The 7-bit read issues exactly one client call: a read_into. -/
theorem read_log (d : I2cDevice σ) (a : SevenBitAddr) (buffer : List Nat) (s : DevState σ) :
    (HubrisI2c.read d a buffer s).2.log = s.log ++ [DevCall.readInto buffer] := by
  rcases hr : d.readInto buffer s.dev with ⟨r, σ1⟩
  cases r <;> simp [HubrisI2c.read, devReadInto, hr]

/-- The 7-bit write issues exactly one client call: a write. -/
theorem write_log (d : I2cDevice σ) (a : SevenBitAddr) (bytes : List Nat) (s : DevState σ) :
    (HubrisI2c.write d a bytes s).2.log = s.log ++ [DevCall.write bytes] := by
  rcases hw : d.write bytes s.dev with ⟨r, σ1⟩
  cases r <;> simp [HubrisI2c.write, devWrite, hw]

/-- The 7-bit write_read issues at most two client calls. -/
theorem write_read_log_len (d : I2cDevice σ) (a : SevenBitAddr) (bytes buffer : List Nat)
    (s : DevState σ) :
    ∃ t, (HubrisI2c.write_read d a bytes buffer s).2.log = s.log ++ t ∧ t.length ≤ 2 := by
  by_cases hb : bytes.length = 1
  · rcases hr : d.readRegInto (bytes.headD 0) buffer s.dev with ⟨r, σ1⟩
    refine ⟨[DevCall.readRegInto (bytes.headD 0) buffer], ?_, by simp⟩
    cases r <;> simp only [HubrisI2c.write_read, if_pos hb, devReadRegInto, hr]
  · rcases hw : d.write bytes s.dev with ⟨r1, σ1⟩
    cases r1 with
    | error c =>
      refine ⟨[DevCall.write bytes], ?_, by simp⟩
      simp [HubrisI2c.write_read, if_neg hb, devWrite, hw]
    | ok n =>
      rcases hr : d.readInto buffer σ1 with ⟨r2, σ2⟩
      refine ⟨[DevCall.write bytes, DevCall.readInto buffer], ?_, by simp⟩
      cases r2 <;> simp [HubrisI2c.write_read, if_neg hb, devWrite, hw, devReadInto, hr]

/-- The 10-bit write emulation issues at most one client call, never the
register primitive, and fails only with the overflow or 10bit_write tags. -/
theorem write10_noreg (d : I2cDevice σ) (a : TenBitAddr) (p : List Nat) (s : DevState σ) :
    ∃ t, (HubrisI2c.write10 d a p s).2.log = s.log ++ t ∧ t.length ≤ 1 ∧
      (∀ reg buf, DevCall.readRegInto reg buf ∉ t) ∧
      (∀ e, (HubrisI2c.write10 d a p s).1 = Except.error e →
        e.operation = "10bit_write_buffer_overflow" ∨ e.operation = "10bit_write") := by
  cases hp : pushAll 258 [] (tenBitAddrHigh a.val :: tenBitAddrLow a.val :: p) with
  | none =>
    refine ⟨[], by simp [HubrisI2c.write10, hp], by simp, by simp, ?_⟩
    intro e he
    simp only [HubrisI2c.write10, hp] at he
    cases he
    exact Or.inl rfl
  | some wd =>
    rcases hw : d.write wd s.dev with ⟨r1, σ1⟩
    refine ⟨[DevCall.write wd], ?_, by simp, by simp, ?_⟩
    · cases r1 <;> simp [HubrisI2c.write10, hp, devWrite, hw]
    · intro e he
      cases r1 with
      | ok n => simp [HubrisI2c.write10, hp, devWrite, hw] at he
      | error c =>
        simp only [HubrisI2c.write10, hp, devWrite, hw] at he
        cases he
        exact Or.inr rfl

/-- The 10-bit read emulation issues at most two client calls, never the
register primitive, and fails only with the setup or read tags. -/
theorem read10_noreg (d : I2cDevice σ) (a : TenBitAddr) (buffer : List Nat) (s : DevState σ) :
    ∃ t, (HubrisI2c.read10 d a buffer s).2.log = s.log ++ t ∧ t.length ≤ 2 ∧
      (∀ reg buf, DevCall.readRegInto reg buf ∉ t) ∧
      (∀ e, (HubrisI2c.read10 d a buffer s).1 = Except.error e →
        e.operation = "10bit_address_setup" ∨ e.operation = "10bit_read") := by
  rcases hw : d.write [tenBitAddrHigh a.val, tenBitAddrLow a.val] s.dev with ⟨r1, σ1⟩
  cases r1 with
  | error c =>
    refine ⟨[DevCall.write [tenBitAddrHigh a.val, tenBitAddrLow a.val]],
      by simp [HubrisI2c.read10, devWrite, hw], by simp, by simp, ?_⟩
    intro e he
    simp only [HubrisI2c.read10, devWrite, hw] at he
    cases he
    exact Or.inl rfl
  | ok n =>
    rcases hr : d.readInto buffer σ1 with ⟨r2, σ2⟩
    refine ⟨[DevCall.write [tenBitAddrHigh a.val, tenBitAddrLow a.val],
      DevCall.readInto buffer], ?_, by simp, by simp, ?_⟩
    · cases r2 <;> simp [HubrisI2c.read10, devWrite, hw, devReadInto, hr]
    · intro e he
      cases r2 with
      | ok r => simp [HubrisI2c.read10, devWrite, hw, devReadInto, hr] at he
      | error c =>
        simp only [HubrisI2c.read10, devWrite, hw, devReadInto, hr] at he
        cases he
        exact Or.inr rfl

/-- The 10-bit write_read issues at most three client calls, never the
register primitive, and fails only with 10-bit tags. -/
theorem write_read10_noreg (d : I2cDevice σ) (a : TenBitAddr) (bytes buffer : List Nat)
    (s : DevState σ) :
    ∃ t, (HubrisI2c.write_read10 d a bytes buffer s).2.log = s.log ++ t ∧ t.length ≤ 3 ∧
      (∀ reg buf, DevCall.readRegInto reg buf ∉ t) ∧
      (∀ e, (HubrisI2c.write_read10 d a bytes buffer s).1 = Except.error e →
        e.operation = "10bit_write_buffer_overflow" ∨ e.operation = "10bit_write" ∨
        e.operation = "10bit_address_setup" ∨ e.operation = "10bit_read") := by
  obtain ⟨t1, h1log, h1len, h1reg, h1tag⟩ := write10_noreg d a bytes s
  rcases hw : HubrisI2c.write10 d a bytes s with ⟨r1, s1⟩
  rw [hw] at h1log h1tag
  cases r1 with
  | error e0 =>
    refine ⟨t1, ?_, by omega, h1reg, ?_⟩
    · simp only [HubrisI2c.write_read10, hw]
      exact h1log
    · intro e he
      simp only [HubrisI2c.write_read10, hw] at he
      cases he
      rcases h1tag e0 rfl with h | h
      · exact Or.inl h
      · exact Or.inr (Or.inl h)
  | ok u =>
    obtain ⟨t2, h2log, h2len, h2reg, h2tag⟩ := read10_noreg d a buffer s1
    refine ⟨t1 ++ t2, ?_, ?_, ?_, ?_⟩
    · simp only [HubrisI2c.write_read10, hw]
      rw [h2log, h1log, List.append_assoc]
    · simp only [List.length_append]; omega
    · intro reg buf hmem
      rcases List.mem_append.mp hmem with h | h
      · exact h1reg reg buf h
      · exact h2reg reg buf h
    · intro e he
      simp only [HubrisI2c.write_read10, hw] at he
      rcases h2tag e he with h | h
      · exact Or.inr (Or.inr (Or.inl h))
      · exact Or.inr (Or.inr (Or.inr h))

/-- The 7-bit transaction issues at most one client call per element. -/
theorem transaction_log_len (d : I2cDevice σ) (a : SevenBitAddr) :
    ∀ (ops : List Operation) (s : DevState σ), ∃ t,
      (HubrisI2c.transaction d a ops s).2.log = s.log ++ t ∧ t.length ≤ ops.length := by
  intro ops
  induction ops with
  | nil => intro s; exact ⟨[], by simp [HubrisI2c.transaction], by simp⟩
  | cons op rest ih =>
    intro s
    cases op with
    | read buffer =>
      rcases hR : HubrisI2c.read d a buffer s with ⟨r1, s1⟩
      have hlog := read_log d a buffer s
      rw [hR] at hlog
      cases r1 with
      | error e =>
        refine ⟨[DevCall.readInto buffer], ?_, by simp⟩
        simp only [HubrisI2c.transaction, hR]
        exact hlog
      | ok buf1 =>
        obtain ⟨t2, h2, hlen2⟩ := ih s1
        rcases hT : HubrisI2c.transaction d a rest s1 with ⟨r2, s2⟩
        rw [hT] at h2
        refine ⟨DevCall.readInto buffer :: t2, ?_, by simp; omega⟩
        cases r2 <;>
          simp only [HubrisI2c.transaction, hR, hT] <;>
          rw [h2, hlog] <;> simp
    | write bytes =>
      rcases hW : HubrisI2c.write d a bytes s with ⟨r1, s1⟩
      have hlog := write_log d a bytes s
      rw [hW] at hlog
      cases r1 with
      | error e =>
        refine ⟨[DevCall.write bytes], ?_, by simp⟩
        simp only [HubrisI2c.transaction, hW]
        exact hlog
      | ok u =>
        obtain ⟨t2, h2, hlen2⟩ := ih s1
        rcases hT : HubrisI2c.transaction d a rest s1 with ⟨r2, s2⟩
        rw [hT] at h2
        refine ⟨DevCall.write bytes :: t2, ?_, by simp; omega⟩
        cases r2 <;>
          simp only [HubrisI2c.transaction, hW, hT] <;>
          rw [h2, hlog] <;> simp

/-- The 10-bit transaction issues at most two client calls per element. -/
theorem transaction10_log_len (d : I2cDevice σ) (a : TenBitAddr) :
    ∀ (ops : List Operation) (s : DevState σ), ∃ t,
      (HubrisI2c.transaction10 d a ops s).2.log = s.log ++ t ∧ t.length ≤ 2 * ops.length := by
  intro ops
  induction ops with
  | nil => intro s; exact ⟨[], by simp [HubrisI2c.transaction10], by simp⟩
  | cons op rest ih =>
    intro s
    cases op with
    | read buffer =>
      obtain ⟨t1, h1, hlen1, _, _⟩ := read10_noreg d a buffer s
      rcases hR : HubrisI2c.read10 d a buffer s with ⟨r1, s1⟩
      rw [hR] at h1
      cases r1 with
      | error e =>
        refine ⟨t1, ?_, by simp; omega⟩
        simp only [HubrisI2c.transaction10, hR]
        exact h1
      | ok buf1 =>
        obtain ⟨t2, h2, hlen2⟩ := ih s1
        rcases hT : HubrisI2c.transaction10 d a rest s1 with ⟨r2, s2⟩
        rw [hT] at h2
        refine ⟨t1 ++ t2, ?_, by simp [List.length_append]; omega⟩
        cases r2 <;>
          simp only [HubrisI2c.transaction10, hR, hT] <;>
          rw [h2, h1, List.append_assoc]
    | write bytes =>
      obtain ⟨t1, h1, hlen1, _, _⟩ := write10_noreg d a bytes s
      rcases hW : HubrisI2c.write10 d a bytes s with ⟨r1, s1⟩
      rw [hW] at h1
      cases r1 with
      | error e =>
        refine ⟨t1, ?_, by simp; omega⟩
        simp only [HubrisI2c.transaction10, hW]
        exact h1
      | ok u =>
        obtain ⟨t2, h2, hlen2⟩ := ih s1
        rcases hT : HubrisI2c.transaction10 d a rest s1 with ⟨r2, s2⟩
        rw [hT] at h2
        refine ⟨t1 ++ t2, ?_, by simp [List.length_append]; omega⟩
        cases r2 <;>
          simp only [HubrisI2c.transaction10, hW, hT] <;>
          rw [h2, h1, List.append_assoc]

/-- C5 (amended): bounded client usage per Core Adapter call: 7-bit read and
write issue exactly one underlying client operation; 7-bit write_read at most
two; 10-bit read at most two; 10-bit write at most one; 10-bit write_read at
most three; transactions at most one (7-bit) or two (10-bit) client
operations per element. -/
theorem core_adapter_bounded_client_ops (d : I2cDevice σ) (a7 : SevenBitAddr)
    (a10 : TenBitAddr) (bytes buffer : List Nat) (ops : List Operation) (s : DevState σ) :
    (HubrisI2c.read d a7 buffer s).2.log.length = s.log.length + 1 ∧
    (HubrisI2c.write d a7 bytes s).2.log.length = s.log.length + 1 ∧
    (HubrisI2c.write_read d a7 bytes buffer s).2.log.length ≤ s.log.length + 2 ∧
    (HubrisI2c.read10 d a10 buffer s).2.log.length ≤ s.log.length + 2 ∧
    (HubrisI2c.write10 d a10 bytes s).2.log.length ≤ s.log.length + 1 ∧
    (HubrisI2c.write_read10 d a10 bytes buffer s).2.log.length ≤ s.log.length + 3 ∧
    (HubrisI2c.transaction d a7 ops s).2.log.length ≤ s.log.length + ops.length ∧
    (HubrisI2c.transaction10 d a10 ops s).2.log.length ≤ s.log.length + 2 * ops.length := by
  refine ⟨?_, ?_, ?_, ?_, ?_, ?_, ?_, ?_⟩
  · rw [read_log]; simp
  · rw [write_log]; simp
  · obtain ⟨t, h, hl⟩ := write_read_log_len d a7 bytes buffer s
    rw [h]; simp only [List.length_append]; omega
  · obtain ⟨t, h, hl, _, _⟩ := read10_noreg d a10 buffer s
    rw [h]; simp only [List.length_append]; omega
  · obtain ⟨t, h, hl, _, _⟩ := write10_noreg d a10 bytes s
    rw [h]; simp only [List.length_append]; omega
  · obtain ⟨t, h, hl, _, _⟩ := write_read10_noreg d a10 bytes buffer s
    rw [h]; simp only [List.length_append]; omega
  · obtain ⟨t, h, hl⟩ := transaction_log_len d a7 ops s
    rw [h]; simp only [List.length_append]; omega
  · obtain ⟨t, h, hl⟩ := transaction10_log_len d a10 ops s
    rw [h]; simp only [List.length_append]; omega

/-- C5 counterexample: a single 10-bit write_read call issues three underlying
client operations, not at most two. -/
theorem core_adapter_three_client_ops :
    (HubrisI2c.write_read10 okDevice ⟨0x123⟩ [0x00] [0x00, 0x00] ⟨(), []⟩).2.log.length = 3 := by
  decide

/-- C3 counterexample: in 10-bit mode a write_read whose write part is exactly
one byte does not issue the register-read-into primitive; it issues three
plain client calls (emulated write, header write, plain read). -/
theorem write_read_tenbit_not_register_primitive :
    (HubrisI2c.write_read10 okDevice ⟨0x123⟩ [0x00] [0x00, 0x00] ⟨(), []⟩).2.log =
      [DevCall.write [0xF2, 0x23, 0x00], DevCall.write [0xF2, 0x23],
        DevCall.readInto [0x00, 0x00]] ∧
    (HubrisI2c.write_read10 okDevice ⟨0x123⟩ [0x00] [0x00, 0x00] ⟨(), []⟩).2.log ≠
      [DevCall.readRegInto 0x00 [0x00, 0x00]] := by
  decide

/-- C3 (amended): in 7-bit mode, a write_read with a one-byte write issues the
single register-read-into primitive (failure tag write_read_reg), and with a
longer write issues a plain write then a plain read (tags
write_read_write_phase / write_read_read_phase, a write failure returned
without attempting the read); in 10-bit mode write_read never uses the
register primitive and fails only with the 10-bit emulation tags. -/
theorem write_read_dispatch_spec (d : I2cDevice σ) (a7 : SevenBitAddr) (a10 : TenBitAddr)
    (bytes buffer : List Nat) (s : DevState σ) :
    (bytes.length = 1 →
      (HubrisI2c.write_read d a7 bytes buffer s).2.log =
        s.log ++ [DevCall.readRegInto (bytes.headD 0) buffer] ∧
      (∀ e, (HubrisI2c.write_read d a7 bytes buffer s).1 = Except.error e →
        e.operation = "write_read_reg")) ∧
    (bytes.length > 1 →
      (∀ c s1, devWrite d bytes s = (Except.error c, s1) →
        HubrisI2c.write_read d a7 bytes buffer s =
          (Except.error ⟨c, "write_read_write_phase"⟩, s1)) ∧
      (∀ n s1, devWrite d bytes s = (Except.ok n, s1) →
        (HubrisI2c.write_read d a7 bytes buffer s).2.log =
          s.log ++ [DevCall.write bytes, DevCall.readInto buffer] ∧
        (∀ e, (HubrisI2c.write_read d a7 bytes buffer s).1 = Except.error e →
          e.operation = "write_read_read_phase"))) ∧
    (∃ t, (HubrisI2c.write_read10 d a10 bytes buffer s).2.log = s.log ++ t ∧
      (∀ reg buf, DevCall.readRegInto reg buf ∉ t) ∧
      (∀ e, (HubrisI2c.write_read10 d a10 bytes buffer s).1 = Except.error e →
        e.operation = "10bit_write_buffer_overflow" ∨ e.operation = "10bit_write" ∨
        e.operation = "10bit_address_setup" ∨ e.operation = "10bit_read")) := by
  refine ⟨fun hb => ?_, fun hb2 => ⟨fun c s1 hw => ?_, fun n s1 hw => ?_⟩, ?_⟩
  · rcases hr : d.readRegInto (bytes.headD 0) buffer s.dev with ⟨r, σ1⟩
    constructor
    · cases r <;> simp only [HubrisI2c.write_read, if_pos hb, devReadRegInto, hr]
    · intro e he
      cases r with
      | ok v =>
        simp only [HubrisI2c.write_read, if_pos hb, devReadRegInto, hr] at he
        exact Except.noConfusion he
      | error c =>
        simp only [HubrisI2c.write_read, if_pos hb, devReadRegInto, hr] at he
        injection he with h
        rw [← h]
  · simp only [HubrisI2c.write_read, if_neg (by omega : ¬bytes.length = 1), hw]
  · have hs1 : s1.log = s.log ++ [DevCall.write bytes] := by
      have hc := congrArg (fun x => x.2.log) hw
      simpa [devWrite] using hc.symm
    rcases hr : d.readInto buffer s1.dev with ⟨r2, σ2⟩
    constructor
    · cases r2 <;>
        simp only [HubrisI2c.write_read, if_neg (by omega : ¬bytes.length = 1), hw,
          devReadInto, hr] <;>
        simp [hs1]
    · intro e he
      cases r2 with
      | ok v =>
        simp only [HubrisI2c.write_read, if_neg (by omega : ¬bytes.length = 1), hw,
          devReadInto, hr] at he
        exact Except.noConfusion he
      | error c =>
        simp only [HubrisI2c.write_read, if_neg (by omega : ¬bytes.length = 1), hw,
          devReadInto, hr] at he
        injection he with h
        rw [← h]
  · obtain ⟨t, h1, _, h3, h4⟩ := write_read10_noreg d a10 bytes buffer s
    exact ⟨t, h1, h3, h4⟩

/-- Witness for C3 at concrete inputs: a one-byte write_read issues exactly
the register primitive; a two-byte one issues a write then a read. -/
theorem write_read_dispatch_witness :
    (HubrisI2c.write_read okDevice ⟨0x48⟩ [0x10] [0x00] ⟨(), []⟩).2.log =
      [DevCall.readRegInto 0x10 [0x00]] ∧
    (HubrisI2c.write_read okDevice ⟨0x48⟩ [0x10, 0x20] [0x00] ⟨(), []⟩).2.log =
      [DevCall.write [0x10, 0x20], DevCall.readInto [0x00]] := by
  constructor
  · have h := ((write_read_dispatch_spec okDevice ⟨0x48⟩ ⟨0x123⟩ [0x10] [0x00]
      ⟨(), []⟩).1 (by decide)).1
    simpa using h
  · have h := ((write_read_dispatch_spec okDevice ⟨0x48⟩ ⟨0x123⟩ [0x10, 0x20] [0x00]
      ⟨(), []⟩).2.1 (by decide)).2 2 ⟨(), [DevCall.write [0x10, 0x20]]⟩ rfl
    simpa using h.1

/-- C1 counterexample: against a device whose register-read primitive fails
while plain write and read succeed, the fast-path dispatcher and the core
adapter disagree on the two-element Write(1 byte)/Read shape: the core path
succeeds, the fast path fails. -/
theorem fastpath_transaction_not_unconditionally_equivalent :
    sameOutcome
      (RegisterOptimizedI2c.transaction regFailDevice ⟨0x48⟩
        [Operation.write [0x10], Operation.read [0, 0, 0, 0]] ⟨(), []⟩).1
      (HubrisI2c.transaction regFailDevice ⟨0x48⟩
        [Operation.write [0x10], Operation.read [0, 0, 0, 0]] ⟨(), []⟩).1 = false ∧
    exceptIsOk (HubrisI2c.transaction regFailDevice ⟨0x48⟩
      [Operation.write [0x10], Operation.read [0, 0, 0, 0]] ⟨(), []⟩).1 = true ∧
    exceptIsOk (RegisterOptimizedI2c.transaction regFailDevice ⟨0x48⟩
      [Operation.write [0x10], Operation.read [0, 0, 0, 0]] ⟨(), []⟩).1 = false := by
  decide

/-- C1 (amended): on any device model whose register-read primitive agrees
with write-then-read, the fast-path transaction on the shape
[Write([w]), Read(buffer)] returns the same success value or the same failure
response code as the core adapter transaction (only the operation labels
differ), and every other shape is delegated unchanged to the core adapter. -/
theorem fastpath_transaction_equiv_of_coherent (d : I2cDevice σ) (hd : d.Coherent)
    (address : SevenBitAddr) (w : Nat) (rb : List Nat) (s : DevState σ) :
    sameOutcome
      (RegisterOptimizedI2c.transaction d address
        [Operation.write [w], Operation.read rb] s).1
      (HubrisI2c.transaction d address
        [Operation.write [w], Operation.read rb] s).1 = true ∧
    (∀ (ops : List Operation) (s2 : DevState σ),
      (∀ wd rb2, ops = [Operation.write wd, Operation.read rb2] → wd.length ≠ 1) →
      RegisterOptimizedI2c.transaction d address ops s2 =
        HubrisI2c.transaction d address ops s2) := by
  constructor
  · have hcoh := hd w rb s.dev
    rcases hw : d.write [w] s.dev with ⟨r1, σ1⟩
    rw [hw] at hcoh
    cases r1 with
    | error c =>
      have hreg : d.readRegInto w rb s.dev = (Except.error c, σ1) := hcoh
      have hfast : (RegisterOptimizedI2c.transaction d address
          [Operation.write [w], Operation.read rb] s).1 =
          Except.error ⟨c, "optimized_transaction"⟩ := by
        simp only [RegisterOptimizedI2c.transaction]
        rw [if_pos (show ([w] : List Nat).length = 1 from rfl)]
        simp only [devReadRegInto, List.headD]
        rw [hreg]
      have hcore : (HubrisI2c.transaction d address
          [Operation.write [w], Operation.read rb] s).1 =
          Except.error ⟨c, "transaction_write"⟩ := by
        simp only [HubrisI2c.transaction, HubrisI2c.write, devWrite]
        rw [hw]
      rw [hfast, hcore]
      simp [sameOutcome]
    | ok n =>
      rcases hr : d.readInto rb σ1 with ⟨r2, σ2⟩
      have hreg : d.readRegInto w rb s.dev = (r2, σ2) := by rw [hcoh]; exact hr
      cases r2 with
      | ok v =>
        have hfast : (RegisterOptimizedI2c.transaction d address
            [Operation.write [w], Operation.read rb] s).1 =
            Except.ok [Operation.write [w], Operation.read v.1] := by
          simp only [RegisterOptimizedI2c.transaction]
          rw [if_pos (show ([w] : List Nat).length = 1 from rfl)]
          simp only [devReadRegInto, List.headD]
          rw [hreg]
        have hcore : (HubrisI2c.transaction d address
            [Operation.write [w], Operation.read rb] s).1 =
            Except.ok [Operation.write [w], Operation.read v.1] := by
          simp only [HubrisI2c.transaction, HubrisI2c.write, HubrisI2c.read,
            devWrite, devReadInto]
          rw [hw]
          simp only []
          rw [hr]
        rw [hfast, hcore]
        simp [sameOutcome]
      | error c =>
        have hfast : (RegisterOptimizedI2c.transaction d address
            [Operation.write [w], Operation.read rb] s).1 =
            Except.error ⟨c, "optimized_transaction"⟩ := by
          simp only [RegisterOptimizedI2c.transaction]
          rw [if_pos (show ([w] : List Nat).length = 1 from rfl)]
          simp only [devReadRegInto, List.headD]
          rw [hreg]
        have hcore : (HubrisI2c.transaction d address
            [Operation.write [w], Operation.read rb] s).1 =
            Except.error ⟨c, "transaction_read"⟩ := by
          simp only [HubrisI2c.transaction, HubrisI2c.write, HubrisI2c.read,
            devWrite, devReadInto]
          rw [hw]
          simp only []
          rw [hr]
        rw [hfast, hcore]
        simp [sameOutcome]
  · intro ops s2 hshape
    rcases ops with _ | ⟨o1, _ | ⟨o2, _ | ⟨o3, t⟩⟩⟩
    · rfl
    · cases o1 <;> rfl
    · cases o1 with
      | read b1 => cases o2 <;> rfl
      | write wd =>
        cases o2 with
        | write b2 => rfl
        | read rb2 =>
          have hne := hshape wd rb2 rfl
          simp only [RegisterOptimizedI2c.transaction]
          rw [if_neg hne]
    · cases o1 <;> cases o2 <;> rfl

/-- Witness for C1 on a coherent concrete device: the fast and core paths
agree on [Write([0x10]), Read(4 bytes)], and a non-matching shape is delegated
unchanged. -/
theorem fastpath_transaction_equiv_witness :
    sameOutcome
      (RegisterOptimizedI2c.transaction okDevice ⟨0x48⟩
        [Operation.write [0x10], Operation.read [0, 0, 0, 0]] ⟨(), []⟩).1
      (HubrisI2c.transaction okDevice ⟨0x48⟩
        [Operation.write [0x10], Operation.read [0, 0, 0, 0]] ⟨(), []⟩).1 = true ∧
    RegisterOptimizedI2c.transaction okDevice ⟨0x48⟩
        [Operation.write [0x10, 0x11]] ⟨(), []⟩ =
      HubrisI2c.transaction okDevice ⟨0x48⟩ [Operation.write [0x10, 0x11]] ⟨(), []⟩ := by
  have h := fastpath_transaction_equiv_of_coherent okDevice (fun _ _ _ => rfl) ⟨0x48⟩ 0x10
    [0, 0, 0, 0] ⟨(), []⟩
  refine ⟨h.1, h.2 [Operation.write [0x10, 0x11]] ⟨(), []⟩ ?_⟩
  intro wd rb2 hh
  simp at hh

/-- One loop iteration on a retryable failure: retry (after the linear
backoff sleep) while attempts remain, otherwise return the failure. -/
theorem retryLoop_retryable_step (kind : E → ErrorKind) (N : Nat) (op : Nat → Except E R)
    (a fuel : Nat) (e : E) (hop : op a = Except.error e)
    (hke : retryableKindB (kind e) = true) :
    retryLoop kind N op a (fuel + 1) =
      if a < N then
        ⟨(retryLoop kind N op (a + 1) fuel).result,
         (retryLoop kind N op (a + 1) fuel).attempts + 1,
         10 * (a + 1) :: (retryLoop kind N op (a + 1) fuel).sleeps⟩
      else ⟨Except.error e, 1, []⟩ := by
  simp only [retryLoop, hop]
  cases hk : kind e with
  | ArbitrationLoss => rfl
  | Other => rfl
  | NoAcknowledge src => rw [hk] at hke; simp [retryableKindB] at hke
  | Bus => rw [hk] at hke; simp [retryableKindB] at hke

/-- One loop iteration on a non-retryable failure: return it at once. -/
theorem retryLoop_nonretryable_step (kind : E → ErrorKind) (N : Nat) (op : Nat → Except E R)
    (a fuel : Nat) (e : E) (hop : op a = Except.error e)
    (hke : retryableKindB (kind e) = false) :
    retryLoop kind N op a (fuel + 1) = ⟨Except.error e, 1, []⟩ := by
  simp only [retryLoop, hop]
  cases hk : kind e with
  | ArbitrationLoss => rw [hk] at hke; simp [retryableKindB] at hke
  | Other => rw [hk] at hke; simp [retryableKindB] at hke
  | NoAcknowledge src => rfl
  | Bus => rfl

/-- One loop iteration on a success: return it at once. -/
theorem retryLoop_ok_step (kind : E → ErrorKind) (N : Nat) (op : Nat → Except E R)
    (a fuel : Nat) (v : R) (hop : op a = Except.ok v) :
    retryLoop kind N op a (fuel + 1) = ⟨Except.ok v, 1, []⟩ := by
  simp only [retryLoop, hop]

/-- A retryable-failure result is a failure on some error of retryable kind. -/
theorem failsRetryable_elim (kind : E → ErrorKind) (r : Except E R)
    (h : failsRetryable kind r = true) :
    ∃ e, r = Except.error e ∧ retryableKindB (kind e) = true := by
  cases r with
  | ok v => simp [failsRetryable] at h
  | error e => exact ⟨e, rfl, h⟩

/-- If every attempt from a through N fails retryably, the loop exhausts its
fuel, returns the last attempt result, and sleeps 10k ms for
k = a + 1, ..., N. -/
theorem retryLoop_exhausts (kind : E → ErrorKind) (N : Nat) (op : Nat → Except E R) :
    ∀ (fuel a : Nat), a + fuel = N + 1 → a ≤ N →
      (∀ k, a ≤ k → k ≤ N → failsRetryable kind (op k) = true) →
      retryLoop kind N op a fuel =
        ⟨op N, fuel, (List.range' (a + 1) (N - a)).map (fun k => 10 * k)⟩ := by
  intro fuel
  induction fuel with
  | zero => intro a hfa ha _; omega
  | succ fuel ih =>
    intro a hfa ha hall
    obtain ⟨e, hop, hke⟩ := failsRetryable_elim kind (op a) (hall a le_rfl ha)
    rw [retryLoop_retryable_step kind N op a fuel e hop hke]
    by_cases hlt : a < N
    · rw [if_pos hlt, ih (a + 1) (by omega) (by omega)
        (fun k hk1 hk2 => hall k (by omega) hk2)]
      have hN : N - a = (N - (a + 1)) + 1 := by omega
      rw [hN, List.range'_succ]
      simp
    · rw [if_neg hlt]
      have haN : a = N := by omega
      subst haN
      have hfuel : fuel = 0 := by omega
      subst hfuel
      rw [hop]
      simp

/-- If attempts a through m - 1 fail retryably and attempt m ends the loop
(success or non-retryable failure), the loop returns attempt m result after
m + 1 - a invocations, sleeping 10k ms for k = a + 1, ..., m. -/
theorem retryLoop_stops (kind : E → ErrorKind) (N : Nat) (op : Nat → Except E R) :
    ∀ (fuel a m : Nat), a + fuel = N + 1 → a ≤ m → m ≤ N →
      (∀ j, a ≤ j → j < m → failsRetryable kind (op j) = true) →
      (failsNonRetryable kind (op m) = true ∨ exceptIsOk (op m) = true) →
      retryLoop kind N op a fuel =
        ⟨op m, m + 1 - a, (List.range' (a + 1) (m - a)).map (fun k => 10 * k)⟩ := by
  intro fuel
  induction fuel with
  | zero => intro a m hfa ha hm _ _; omega
  | succ fuel ih =>
    intro a m hfa ha hm hpre hstop
    rcases Nat.lt_or_ge a m with hlt | hge
    · obtain ⟨e, hop, hke⟩ := failsRetryable_elim kind (op a) (hpre a le_rfl hlt)
      rw [retryLoop_retryable_step kind N op a fuel e hop hke]
      rw [if_pos (by omega)]
      rw [ih (a + 1) m (by omega) (by omega) hm
        (fun j hj1 hj2 => hpre j (by omega) hj2) hstop]
      have hma : m - a = (m - (a + 1)) + 1 := by omega
      rw [hma, List.range'_succ]
      simp only [List.map_cons, RetryResult.mk.injEq]
      exact ⟨trivial, by omega, trivial⟩
    · have ham : a = m := by omega
      subst ham
      rcases hstop with hnr | hok
      · obtain ⟨e, hop, hke⟩ : ∃ e, op a = Except.error e ∧ retryableKindB (kind e) = false := by
          revert hnr
          cases op a with
          | ok v => intro h; simp [failsNonRetryable] at h
          | error e =>
            intro h
            refine ⟨e, rfl, ?_⟩
            simp only [failsNonRetryable] at h
            cases hk : kind e <;> rw [hk] at h <;> simp [nonRetryableKindB] at h <;>
              simp [retryableKindB]
        rw [retryLoop_nonretryable_step kind N op a fuel e hop hke, hop]
        simp
      · obtain ⟨v, hop⟩ : ∃ v, op a = Except.ok v := by
          revert hok
          cases op a with
          | ok v => intro _; exact ⟨v, rfl⟩
          | error e => intro h; simp [exceptIsOk] at h
        rw [retryLoop_ok_step kind N op a fuel v hop, hop]
        simp

/-- C2: the retry decorator with max_retries = N: when every attempt fails
with a retryable kind (arbitration-loss or other), exactly N + 1 attempts are
made, the sleep before zero-based retry k is 10 * (k + 1) ms, and the last
attempt's error is returned; a failure of kind address-nack, data-nack or
bus-error at any attempt is returned immediately with no further attempts;
a success at any attempt is returned immediately with no further attempts. -/
theorem retry_operation_spec (kind : E → ErrorKind) (N : Nat) (op : Nat → Except E R) :
    ((∀ k, k ≤ N → failsRetryable kind (op k) = true) →
      retry_operation kind N op =
        ⟨op N, N + 1, (List.range N).map (fun k => 10 * (k + 1))⟩) ∧
    (∀ m, m ≤ N → (∀ j, j < m → failsRetryable kind (op j) = true) →
      failsNonRetryable kind (op m) = true →
      retry_operation kind N op =
        ⟨op m, m + 1, (List.range m).map (fun k => 10 * (k + 1))⟩) ∧
    (∀ m, m ≤ N → (∀ j, j < m → failsRetryable kind (op j) = true) →
      exceptIsOk (op m) = true →
      retry_operation kind N op =
        ⟨op m, m + 1, (List.range m).map (fun k => 10 * (k + 1))⟩) := by
  have hconv : ∀ n : Nat, (List.range' 1 n).map (fun k => 10 * k) =
      (List.range n).map (fun k => 10 * (k + 1)) := by
    intro n
    rw [List.range'_eq_map_range, List.map_map]
    apply List.map_congr_left
    intro k _
    simp [Function.comp]
    omega
  refine ⟨fun hall => ?_, fun m hm hpre hnr => ?_, fun m hm hpre hok => ?_⟩
  · simp only [retry_operation]
    rw [retryLoop_exhausts kind N op (N + 1) 0 (by omega) (by omega)
      (fun k _ hk2 => hall k hk2)]
    simp [hconv]
  · simp only [retry_operation]
    rw [retryLoop_stops kind N op (N + 1) 0 m (by omega) (by omega) hm
      (fun j _ hj2 => hpre j hj2) (Or.inl hnr)]
    simp [hconv]
  · simp only [retry_operation]
    rw [retryLoop_stops kind N op (N + 1) 0 m (by omega) (by omega) hm
      (fun j _ hj2 => hpre j hj2) (Or.inr hok)]
    simp [hconv]

/-- Witness for C2 at max_retries = 2: an always-arbitration-lost operation is
attempted 3 times with sleeps [10, 20] ms and the last error returned; a
data-nack fails once with no sleep; an immediate success takes one attempt. -/
theorem retry_operation_spec_witness :
    retry_operation HubrisI2cError.kind 2
        (fun _ => (Except.error ⟨ResponseCode.ArbitrationLost, "op"⟩ :
          Except HubrisI2cError Unit)) =
      ⟨Except.error ⟨ResponseCode.ArbitrationLost, "op"⟩, 3, [10, 20]⟩ ∧
    retry_operation HubrisI2cError.kind 2
        (fun _ => (Except.error ⟨ResponseCode.DataNackSent, "op"⟩ :
          Except HubrisI2cError Unit)) =
      ⟨Except.error ⟨ResponseCode.DataNackSent, "op"⟩, 1, []⟩ ∧
    retry_operation HubrisI2cError.kind 2
        (fun _ => (Except.ok () : Except HubrisI2cError Unit)) =
      ⟨Except.ok (), 1, []⟩ := by
  refine ⟨?_, ?_, ?_⟩
  · have h := (retry_operation_spec HubrisI2cError.kind 2
      (fun _ => (Except.error ⟨ResponseCode.ArbitrationLost, "op"⟩ :
        Except HubrisI2cError Unit))).1 (fun k _ => by decide)
    rw [h]
    rfl
  · have h := (retry_operation_spec HubrisI2cError.kind 2
      (fun _ => (Except.error ⟨ResponseCode.DataNackSent, "op"⟩ :
        Except HubrisI2cError Unit))).2.1 0 (by omega)
      (fun j hj => absurd hj (by omega)) (by decide)
    rw [h]
    rfl
  · have h := (retry_operation_spec HubrisI2cError.kind 2
      (fun _ => (Except.ok () : Except HubrisI2cError Unit))).2.2 0 (by omega)
      (fun j hj => absurd hj (by omega)) (by decide)
    rw [h]
    rfl

/-- Full characterization of MockI2c::read: success exactly on a matching Read
expectation of equal buffer length; failures leave buffer and state untouched;
success fills the buffer with the canned response and advances the cursor. -/
theorem mock_read_spec (m : MockI2c) (address : SevenBitAddr) (buffer : List Nat) :
    (exceptIsOk (m.read address buffer).1 = true ↔
      ∃ resp, m.expected_operations[m.operation_index]? =
        some (MockOperation.read address resp) ∧ resp.length = buffer.length) ∧
    (exceptIsOk (m.read address buffer).1 = false →
      (m.read address buffer).2.1 = buffer ∧ (m.read address buffer).2.2 = m) ∧
    (exceptIsOk (m.read address buffer).1 = true →
      (m.read address buffer).2.2 = ⟨m.expected_operations, m.operation_index + 1⟩ ∧
      ∃ resp, m.expected_operations[m.operation_index]? =
        some (MockOperation.read address resp) ∧ (m.read address buffer).2.1 = resp) := by
  unfold MockI2c.read
  by_cases hg : m.operation_index ≥ m.expected_operations.length
  · rw [if_pos hg]
    refine ⟨⟨fun h => by simp [exceptIsOk] at h, ?_⟩, fun _ => ⟨rfl, rfl⟩,
      fun h => by simp [exceptIsOk] at h⟩
    rintro ⟨resp, hop, -⟩
    rw [List.getElem?_eq_none (by omega)] at hop
    exact Option.noConfusion hop
  · rw [if_neg hg]
    cases hop : m.expected_operations[m.operation_index]? with
    | none =>
      dsimp only
      refine ⟨⟨fun h => by simp [exceptIsOk] at h, ?_⟩, fun _ => ⟨rfl, rfl⟩,
        fun h => by simp [exceptIsOk] at h⟩
      rintro ⟨resp, hop2, -⟩
      exact Option.noConfusion hop2
    | some o =>
      cases o with
      | read ea resp0 =>
        dsimp only
        by_cases ha : ea = address
        · subst ha
          rw [if_neg (not_not_intro rfl)]
          by_cases hl : buffer.length ≠ resp0.length
          · rw [if_pos hl]
            refine ⟨⟨fun h => by simp [exceptIsOk] at h, ?_⟩, fun _ => ⟨rfl, rfl⟩,
              fun h => by simp [exceptIsOk] at h⟩
            rintro ⟨resp, hop2, hlen⟩
            injection hop2 with h2
            injection h2 with h3 h4
            subst h4
            omega
          · rw [if_neg hl]
            refine ⟨⟨fun _ => ⟨resp0, rfl, (not_not.mp hl).symm⟩, fun _ => rfl⟩,
              fun h => by simp [exceptIsOk] at h,
              fun _ => ⟨rfl, resp0, rfl, rfl⟩⟩
        · rw [if_pos ha]
          refine ⟨⟨fun h => by simp [exceptIsOk] at h, ?_⟩, fun _ => ⟨rfl, rfl⟩,
            fun h => by simp [exceptIsOk] at h⟩
          rintro ⟨resp, hop2, -⟩
          injection hop2 with h2
          injection h2 with h3 h4
          exact absurd h3 ha
      | write ea data =>
        dsimp only
        refine ⟨⟨fun h => by simp [exceptIsOk] at h, ?_⟩, fun _ => ⟨rfl, rfl⟩,
          fun h => by simp [exceptIsOk] at h⟩
        rintro ⟨resp, hop2, -⟩
        simp at hop2
      | writeRead ea w r =>
        dsimp only
        refine ⟨⟨fun h => by simp [exceptIsOk] at h, ?_⟩, fun _ => ⟨rfl, rfl⟩,
          fun h => by simp [exceptIsOk] at h⟩
        rintro ⟨resp, hop2, -⟩
        simp at hop2

/-- Full characterization of MockI2c::write: success exactly on a matching
Write expectation with identical payload; failure leaves the state untouched;
success advances the cursor. -/
theorem mock_write_spec (m : MockI2c) (address : SevenBitAddr) (bytes : List Nat) :
    (exceptIsOk (m.write address bytes).1 = true ↔
      m.expected_operations[m.operation_index]? =
        some (MockOperation.write address bytes)) ∧
    (exceptIsOk (m.write address bytes).1 = false → (m.write address bytes).2 = m) ∧
    (exceptIsOk (m.write address bytes).1 = true →
      (m.write address bytes).2 = ⟨m.expected_operations, m.operation_index + 1⟩) := by
  unfold MockI2c.write
  by_cases hg : m.operation_index ≥ m.expected_operations.length
  · rw [if_pos hg]
    refine ⟨⟨fun h => by simp [exceptIsOk] at h, ?_⟩, fun _ => rfl,
      fun h => by simp [exceptIsOk] at h⟩
    intro hop
    rw [List.getElem?_eq_none (by omega)] at hop
    exact Option.noConfusion hop
  · rw [if_neg hg]
    cases hop : m.expected_operations[m.operation_index]? with
    | none =>
      dsimp only
      refine ⟨⟨fun h => by simp [exceptIsOk] at h, ?_⟩, fun _ => rfl,
        fun h => by simp [exceptIsOk] at h⟩
      intro hop2
      exact Option.noConfusion hop2
    | some o =>
      cases o with
      | write ea data =>
        dsimp only
        by_cases ha : ea = address
        · subst ha
          rw [if_neg (not_not_intro rfl)]
          by_cases hd : bytes ≠ data
          · rw [if_pos hd]
            refine ⟨⟨fun h => by simp [exceptIsOk] at h, ?_⟩, fun _ => rfl,
              fun h => by simp [exceptIsOk] at h⟩
            intro hop2
            injection hop2 with h2
            injection h2 with h3 h4
            exact absurd h4.symm hd
          · rw [if_neg hd]
            refine ⟨⟨fun _ => by rw [not_not.mp hd], fun _ => rfl⟩,
              fun h => by simp [exceptIsOk] at h, fun _ => rfl⟩
        · rw [if_pos ha]
          refine ⟨⟨fun h => by simp [exceptIsOk] at h, ?_⟩, fun _ => rfl,
            fun h => by simp [exceptIsOk] at h⟩
          intro hop2
          injection hop2 with h2
          injection h2 with h3 h4
          exact absurd h3 ha
      | read ea resp0 =>
        dsimp only
        refine ⟨⟨fun h => by simp [exceptIsOk] at h, ?_⟩, fun _ => rfl,
          fun h => by simp [exceptIsOk] at h⟩
        intro hop2
        simp at hop2
      | writeRead ea w r =>
        dsimp only
        refine ⟨⟨fun h => by simp [exceptIsOk] at h, ?_⟩, fun _ => rfl,
          fun h => by simp [exceptIsOk] at h⟩
        intro hop2
        simp at hop2

/-- Full characterization of MockI2c::write_read: success exactly on a
matching WriteRead expectation with identical write payload and equal buffer
length; failures leave buffer and state untouched; success fills the buffer
with the canned response and advances the cursor. -/
theorem mock_write_read_spec (m : MockI2c) (address : SevenBitAddr)
    (bytes buffer : List Nat) :
    (exceptIsOk (m.write_read address bytes buffer).1 = true ↔
      ∃ resp, m.expected_operations[m.operation_index]? =
        some (MockOperation.writeRead address bytes resp) ∧
        resp.length = buffer.length) ∧
    (exceptIsOk (m.write_read address bytes buffer).1 = false →
      (m.write_read address bytes buffer).2.1 = buffer ∧
      (m.write_read address bytes buffer).2.2 = m) ∧
    (exceptIsOk (m.write_read address bytes buffer).1 = true →
      (m.write_read address bytes buffer).2.2 =
        ⟨m.expected_operations, m.operation_index + 1⟩ ∧
      ∃ resp, m.expected_operations[m.operation_index]? =
        some (MockOperation.writeRead address bytes resp) ∧
        (m.write_read address bytes buffer).2.1 = resp) := by
  unfold MockI2c.write_read
  by_cases hg : m.operation_index ≥ m.expected_operations.length
  · rw [if_pos hg]
    refine ⟨⟨fun h => by simp [exceptIsOk] at h, ?_⟩, fun _ => ⟨rfl, rfl⟩,
      fun h => by simp [exceptIsOk] at h⟩
    rintro ⟨resp, hop, -⟩
    rw [List.getElem?_eq_none (by omega)] at hop
    exact Option.noConfusion hop
  · rw [if_neg hg]
    cases hop : m.expected_operations[m.operation_index]? with
    | none =>
      dsimp only
      refine ⟨⟨fun h => by simp [exceptIsOk] at h, ?_⟩, fun _ => ⟨rfl, rfl⟩,
        fun h => by simp [exceptIsOk] at h⟩
      rintro ⟨resp, hop2, -⟩
      exact Option.noConfusion hop2
    | some o =>
      cases o with
      | writeRead ea wdata resp0 =>
        dsimp only
        by_cases ha : ea = address
        · subst ha
          rw [if_neg (not_not_intro rfl)]
          by_cases hd : bytes ≠ wdata
          · rw [if_pos hd]
            refine ⟨⟨fun h => by simp [exceptIsOk] at h, ?_⟩, fun _ => ⟨rfl, rfl⟩,
              fun h => by simp [exceptIsOk] at h⟩
            rintro ⟨resp, hop2, -⟩
            injection hop2 with h2
            injection h2 with h3 h4 h5
            exact absurd h4.symm hd
          · rw [if_neg hd]
            by_cases hl : buffer.length ≠ resp0.length
            · rw [if_pos hl]
              refine ⟨⟨fun h => by simp [exceptIsOk] at h, ?_⟩, fun _ => ⟨rfl, rfl⟩,
                fun h => by simp [exceptIsOk] at h⟩
              rintro ⟨resp, hop2, hlen⟩
              injection hop2 with h2
              injection h2 with h3 h4 h5
              subst h5
              omega
            · rw [if_neg hl]
              refine ⟨⟨fun _ => ⟨resp0, by rw [not_not.mp hd], (not_not.mp hl).symm⟩,
                fun _ => rfl⟩,
                fun h => by simp [exceptIsOk] at h,
                fun _ => ⟨rfl, resp0, by rw [not_not.mp hd], rfl⟩⟩
        · rw [if_pos ha]
          refine ⟨⟨fun h => by simp [exceptIsOk] at h, ?_⟩, fun _ => ⟨rfl, rfl⟩,
            fun h => by simp [exceptIsOk] at h⟩
          rintro ⟨resp, hop2, -⟩
          injection hop2 with h2
          injection h2 with h3 h4 h5
          exact absurd h3 ha
      | read ea resp0 =>
        dsimp only
        refine ⟨⟨fun h => by simp [exceptIsOk] at h, ?_⟩, fun _ => ⟨rfl, rfl⟩,
          fun h => by simp [exceptIsOk] at h⟩
        rintro ⟨resp, hop2, -⟩
        simp at hop2
      | write ea data =>
        dsimp only
        refine ⟨⟨fun h => by simp [exceptIsOk] at h, ?_⟩, fun _ => ⟨rfl, rfl⟩,
          fun h => by simp [exceptIsOk] at h⟩
        rintro ⟨resp, hop2, -⟩
        simp at hop2

/-- C9: each MockI2c call either matches the next expectation (kind, address,
payload content, buffer length) and advances the cursor by exactly one, or
returns a descriptive error (also on script exhaustion) leaving the cursor
unchanged. -/
theorem mock_cursor_spec (m : MockI2c) (address : SevenBitAddr) (bytes buffer : List Nat) :
    (exceptIsOk (m.read address buffer).1 = false →
      (m.read address buffer).2.2.operation_index = m.operation_index) ∧
    (exceptIsOk (m.read address buffer).1 = true →
      (m.read address buffer).2.2.operation_index = m.operation_index + 1) ∧
    (exceptIsOk (m.read address buffer).1 = true ↔
      ∃ resp, m.expected_operations[m.operation_index]? =
        some (MockOperation.read address resp) ∧ resp.length = buffer.length) ∧
    (exceptIsOk (m.write address bytes).1 = false →
      (m.write address bytes).2.operation_index = m.operation_index) ∧
    (exceptIsOk (m.write address bytes).1 = true →
      (m.write address bytes).2.operation_index = m.operation_index + 1) ∧
    (exceptIsOk (m.write address bytes).1 = true ↔
      m.expected_operations[m.operation_index]? =
        some (MockOperation.write address bytes)) ∧
    (exceptIsOk (m.write_read address bytes buffer).1 = false →
      (m.write_read address bytes buffer).2.2.operation_index = m.operation_index) ∧
    (exceptIsOk (m.write_read address bytes buffer).1 = true →
      (m.write_read address bytes buffer).2.2.operation_index = m.operation_index + 1) ∧
    (exceptIsOk (m.write_read address bytes buffer).1 = true ↔
      ∃ resp, m.expected_operations[m.operation_index]? =
        some (MockOperation.writeRead address bytes resp) ∧
        resp.length = buffer.length) ∧
    (m.operation_index ≥ m.expected_operations.length →
      (m.read address buffer).1 = Except.error ⟨"Unexpected read operation"⟩ ∧
      (m.write address bytes).1 = Except.error ⟨"Unexpected write operation"⟩ ∧
      (m.write_read address bytes buffer).1 =
        Except.error ⟨"Unexpected write_read operation"⟩) := by
  obtain ⟨hr1, hr2, hr3⟩ := mock_read_spec m address buffer
  obtain ⟨hw1, hw2, hw3⟩ := mock_write_spec m address bytes
  obtain ⟨hwr1, hwr2, hwr3⟩ := mock_write_read_spec m address bytes buffer
  refine ⟨fun h => by simp [(hr2 h).2], fun h => by simp [(hr3 h).1], hr1,
    fun h => by simp [hw2 h], fun h => by simp [hw3 h], hw1,
    fun h => by simp [(hwr2 h).2], fun h => by simp [(hwr3 h).1], hwr1,
    fun hg => ⟨?_, ?_, ?_⟩⟩
  · simp [MockI2c.read, hg]
  · simp [MockI2c.write, hg]
  · simp [MockI2c.write_read, hg]

/-- Witness for C9 on the scripted temperature-register scenario: a matching
write_read advances the cursor to 1, a mismatching payload leaves it at 0,
and an exhausted script reports an error. -/
theorem mock_cursor_witness :
    (MockI2c.write_read ⟨[MockOperation.writeRead ⟨0x48⟩ [0x00] [0x17, 0x00]], 0⟩ ⟨0x48⟩
      [0x00] [0x00, 0x00]).2.2.operation_index = 1 ∧
    (MockI2c.write_read ⟨[MockOperation.writeRead ⟨0x48⟩ [0x00] [0x17, 0x00]], 0⟩ ⟨0x48⟩
      [0x01] [0x00, 0x00]).2.2.operation_index = 0 ∧
    (MockI2c.read ⟨[], 0⟩ ⟨0x48⟩ [0x00]).1 =
      Except.error ⟨"Unexpected read operation"⟩ := by
  refine ⟨?_, ?_, ?_⟩
  · exact (mock_cursor_spec ⟨[MockOperation.writeRead ⟨0x48⟩ [0x00] [0x17, 0x00]], 0⟩
      ⟨0x48⟩ [0x00] [0x00, 0x00]).2.2.2.2.2.2.2.1 (by decide)
  · exact (mock_cursor_spec ⟨[MockOperation.writeRead ⟨0x48⟩ [0x00] [0x17, 0x00]], 0⟩
      ⟨0x48⟩ [0x01] [0x00, 0x00]).2.2.2.2.2.2.1 (by decide)
  · exact ((mock_cursor_spec ⟨[], 0⟩ ⟨0x48⟩ [0x00] [0x00]).2.2.2.2.2.2.2.2.2
      (by decide)).1

/-- C10: a MockI2c read or write_read that returns an error leaves the
caller's buffer exactly as it was; on success the buffer holds exactly the
canned response bytes of the matched expectation. -/
theorem mock_buffer_frame_spec (m : MockI2c) (address : SevenBitAddr)
    (bytes buffer : List Nat) :
    (exceptIsOk (m.read address buffer).1 = false →
      (m.read address buffer).2.1 = buffer) ∧
    (exceptIsOk (m.read address buffer).1 = true →
      ∃ resp, m.expected_operations[m.operation_index]? =
        some (MockOperation.read address resp) ∧ (m.read address buffer).2.1 = resp) ∧
    (exceptIsOk (m.write_read address bytes buffer).1 = false →
      (m.write_read address bytes buffer).2.1 = buffer) ∧
    (exceptIsOk (m.write_read address bytes buffer).1 = true →
      ∃ resp, m.expected_operations[m.operation_index]? =
        some (MockOperation.writeRead address bytes resp) ∧
        (m.write_read address bytes buffer).2.1 = resp) := by
  obtain ⟨-, hr2, hr3⟩ := mock_read_spec m address buffer
  obtain ⟨-, hwr2, hwr3⟩ := mock_write_read_spec m address bytes buffer
  exact ⟨fun h => (hr2 h).1, fun h => (hr3 h).2, fun h => (hwr2 h).1,
    fun h => (hwr3 h).2⟩

/-- Witness for C10: a mismatching write_read leaves the 2-byte buffer as it
was; the matching call fills it with the canned response. -/
theorem mock_buffer_frame_witness :
    (MockI2c.write_read ⟨[MockOperation.writeRead ⟨0x48⟩ [0x00] [0x17, 0x00]], 0⟩ ⟨0x48⟩
      [0x01] [0x00, 0x00]).2.1 = [0x00, 0x00] ∧
    (∃ resp, ([MockOperation.writeRead ⟨0x48⟩ [0x00] [0x17, 0x00]] :
        List MockOperation)[(0 : Nat)]? =
      some (MockOperation.writeRead ⟨0x48⟩ [0x00] resp) ∧
      (MockI2c.write_read ⟨[MockOperation.writeRead ⟨0x48⟩ [0x00] [0x17, 0x00]], 0⟩ ⟨0x48⟩
        [0x00] [0x00, 0x00]).2.1 = resp) := by
  refine ⟨?_, ?_⟩
  · exact (mock_buffer_frame_spec ⟨[MockOperation.writeRead ⟨0x48⟩ [0x00] [0x17, 0x00]], 0⟩
      ⟨0x48⟩ [0x01] [0x00, 0x00]).2.2.1 (by decide)
  · exact (mock_buffer_frame_spec ⟨[MockOperation.writeRead ⟨0x48⟩ [0x00] [0x17, 0x00]], 0⟩
      ⟨0x48⟩ [0x00] [0x00, 0x00]).2.2.2 (by decide)
